import Mathlib

/-
Verification of `docs/qe_apidoc.py` (QuantEcon.py documentation stub
generator).

The script is Python 2 (it calls `.sort()` on the result of `map`, which
is a list in Python 2).  We embed it shallowly:

* an input filesystem is a listing of (directory, filename) pairs, in
  directory-listing order (Python's `glob` returns `os.listdir` order,
  unsorted);
* `glob(dir ++ "/[a-z0-9]*.py")` followed by `x.split('/')[-1]` is
  embedded as `globNames dir`, returning the matching filenames in
  listing order (a filename from a listing never contains a slash, so
  `split('/')[-1]` recovers precisely the filename);
* the effect of a run is the ordered list of filesystem events it
  performs: `ensureDir d` (the `if not os.path.exists: os.makedirs`
  idiom) and `write dir fname content` (a path is built by
  `os.path.join`; we record the joined directory part and the filename);
* `str.format` on the module-level template literals is embedded as a
  Lean function of a `String` argument per slot, concatenating the exact
  literal segments of the source.
-/

namespace QeApidoc

/-- Python `s[:-3]`: drop the final three characters (used to strip a
`.py` extension). -/
def dropPy (s : String) : String :=
  String.mk (s.data.take (s.data.length - 3))

/-- Python `s.split(".")[0]`: the longest prefix before the first dot
(used by `all_auto` to drop the `.py` ending). -/
def dotHead (s : String) : String :=
  String.mk (s.data.takeWhile (fun c => c != '.'))

/-- The underline string `"=" * len(mod)`. -/
def eqStr (m : String) : String :=
  String.mk (List.replicate m.length '=')

/-- Python `str.capitalize()`: first character uppercased, the rest
lowercased. -/
def pyCapitalize (s : String) : String :=
  match s.data with
  | [] => ""
  | c :: rest => String.mk (c.toUpper :: rest.map Char.toLower)

/-- Python `sep.join(l)`. -/
def joinSep (sep : String) : List String → String
  | [] => ""
  | [x] => x
  | x :: y :: xs => x ++ sep ++ joinSep sep (y :: xs)

/-- Does the character fall in the glob character class `[a-z0-9]`? -/
def isLowerDigit (c : Char) : Bool :=
  ('a' ≤ c && c ≤ 'z') || ('0' ≤ c && c ≤ '9')

/-- Does a filename match the glob pattern `[a-z0-9]*.py`?  The first
character must be a lowercase letter or a digit, the name must end in
`.py` after that first character, and `*` never matches a slash. -/
def matchPy (f : String) : Bool :=
  (match f.data with
   | [] => false
   | c :: _ => isLowerDigit c)
  && 4 ≤ f.data.length
  && f.data.drop (f.data.length - 3) == ['.', 'p', 'y']
  && !(f.data.contains '/')

/-- An input filesystem: a listing of (directory, filename) pairs in
directory-listing order. -/
abbrev FS := List (String × String)

/-- `glob(d ++ "/[a-z0-9]*.py")` followed by taking `split('/')[-1]` of
each hit: the matching filenames of directory `d`, in listing order. -/
def globNames (d : String) (fs : FS) : List String :=
  (fs.filter (fun s => s.1 == d && matchPy s.2)).map (fun s => s.2)

/-! ### The string templates of the source -/

/-- `module_template` (the "tools" / base-level template). -/
def module_template (mod_name equals : String) : String :=
  mod_name ++ "\n" ++ equals ++
  "\n\n.. automodule:: quantecon." ++ mod_name ++
  "\n    :members:\n    :undoc-members:\n    :show-inheritance:\n"

/-- `markov_module_template`. -/
def markov_module_template (mod_name equals : String) : String :=
  mod_name ++ "\n" ++ equals ++
  "\n\n.. automodule:: quantecon.markov." ++ mod_name ++
  "\n    :members:\n    :undoc-members:\n    :show-inheritance:\n"

/-- `model_module_template`. -/
def model_module_template (mod_name equals : String) : String :=
  mod_name ++ "\n" ++ equals ++
  "\n\n.. automodule:: quantecon.models." ++ mod_name ++
  "\n    :members:\n    :undoc-members:\n    :show-inheritance:\n"

/-- `solow_model_module_template`. -/
def solow_model_module_template (mod_name equals : String) : String :=
  mod_name ++ "\n" ++ equals ++
  "\n\n.. automodule:: quantecon.models.solow." ++ mod_name ++
  "\n    :members:\n    :undoc-members:\n    :show-inheritance:\n"

/-- `random_module_template`. -/
def random_module_template (mod_name equals : String) : String :=
  mod_name ++ "\n" ++ equals ++
  "\n\n.. automodule:: quantecon.random." ++ mod_name ++
  "\n    :members:\n    :undoc-members:\n    :show-inheritance:\n"

/-- `util_module_template`. -/
def util_module_template (mod_name equals : String) : String :=
  mod_name ++ "\n" ++ equals ++
  "\n\n.. automodule:: quantecon.util." ++ mod_name ++
  "\n    :members:\n    :undoc-members:\n    :show-inheritance:\n"

/-- `all_index_template` with its `{generated}` slot. -/
def all_index_template (generated : String) : String :=
  "=======================\nQuantEcon documentation\n=======================\n\nAuto-generated documentation by module:\n\n.. toctree::\n   :maxdepth: 2\n\n   "
  ++ generated ++
  "\n\n\nIndices and tables\n==================\n\n* :ref:`genindex`\n* :ref:`modindex`\n* :ref:`search`\n"

/-- `split_index_template` (a fixed string, no slots). -/
def split_index_template : String :=
  "=======================\nQuantEcon documentation\n=======================\n\nThe `quantecon` python library is composed of two main section: models\nand tools. The models section contains implementations of standard\nmodels, many of which are discussed in lectures on the website `quant-\necon.net <http://quant-econ.net>`_.\n\n.. toctree::\n   :maxdepth: 2\n\n   markov\n   models\n   random\n   tools\n\nIndices and tables\n==================\n\n* :ref:`genindex`\n* :ref:`modindex`\n* :ref:`search`\n"

/-- `split_file_template` with its `{name}`, `{equals}` and `{files}`
slots. -/
def split_file_template (name equals files : String) : String :=
  name ++ "\n" ++ equals ++
  "\n\n.. toctree::\n   :maxdepth: 2\n\n   " ++ files ++ "\n"

/-! ### Filesystem events -/

/-- One filesystem effect of a run: ensuring a directory exists, or
writing a file (directory part, filename, content). -/
inductive Event where
  | ensureDir (d : String)
  | write (dir fname content : String)
deriving DecidableEq, Repr

/-- The (directory, filename) keys of the write events, in order. -/
def writeKeys (evs : List Event) : List (String × String) :=
  evs.filterMap fun e =>
    match e with
    | Event.write d f _ => some (d, f)
    | _ => none

/-- The directories of the `ensureDir` events, in order. -/
def dirsEnsured (evs : List Event) : List String :=
  evs.filterMap fun e =>
    match e with
    | Event.ensureDir d => some d
    | _ => none

/-- The write events as ((directory, filename), content) triples, in
order. -/
def writesKC (evs : List Event) : List ((String × String) × String) :=
  evs.filterMap fun e =>
    match e with
    | Event.write d f c => some ((d, f), c)
    | _ => none

/-- The content written at a given (directory, filename), if any (first
write wins; the source never writes one path twice in a run). -/
def findWrite (evs : List Event) (d f : String) : Option String :=
  ((writesKC evs).find? (fun w => w.1 == (d, f))).map (fun w => w.2)

/-! ### `model_tool` (split-index mode) -/

/-- Lexicographic comparison of character lists by code point: the order
Python 2 `list.sort()` uses on the byte strings at hand. -/
def lexLe : List Char → List Char → Bool
  | [], _ => true
  | _ :: _, [] => false
  | a :: as, b :: bs =>
    if a.toNat < b.toNat then true
    else if b.toNat < a.toNat then false
    else lexLe as bs

/-- Python string comparison `a <= b`. -/
def strLe (a b : String) : Bool := lexLe a.data b.data

/-- The sorted bare names of one category: glob, strip `.py`, then
`.sort()` (ascending lexicographic, as Python sorts strings). -/
def catNames (d : String) (fs : FS) : List String :=
  List.insertionSort (fun a b => strLe a b = true) ((globNames d fs).map dropPy)

def markovNames (fs : FS) : List String := catNames "../quantecon/markov" fs

def modelsNames (fs : FS) : List String := catNames "../quantecon/models" fs

def solowNames (fs : FS) : List String := catNames "../quantecon/models/solow" fs

def randomNames (fs : FS) : List String := catNames "../quantecon/random" fs

def toolsNames (fs : FS) : List String := catNames "../quantecon" fs

def utilNames (fs : FS) : List String := catNames "../quantecon/util" fs

/-- The per-module writes of one category: for each name in order, write
`dir/mod.rst` with the category template rendered at the name and an
underline of matching length. -/
def catWrites (dir : String) (tpl : String → String → String)
    (names : List String) : List Event :=
  names.map (fun mod => Event.write dir (mod ++ ".rst") (tpl mod (eqStr mod)))

/-- The toctree block of `markov.rst`:
`"markov/" + "\n   markov/".join(markov)`. -/
def markovBlock (fs : FS) : String :=
  "markov/" ++ joinSep "\n   markov/" (markovNames fs)

/-- The toctree block of `models.rst`; the source appends the fixed
literal `"\n   solow/"` after the join. -/
def modelsBlock (fs : FS) : String :=
  "models/" ++ joinSep "\n   models/" (modelsNames fs) ++ "\n   solow/"

/-- The toctree block of `random.rst`. -/
def randomBlock (fs : FS) : String :=
  "random/" ++ joinSep "\n   random/" (randomNames fs)

/-- The toctree block of `tools.rst`. -/
def toolsBlock (fs : FS) : String :=
  "tools/" ++ joinSep "\n   tools/" (toolsNames fs)

/-- The toctree block of `util.rst`. -/
def utilBlock (fs : FS) : String :=
  "util/" ++ joinSep "\n   util/" (utilNames fs)

/-- The directories `model_tool` ensures, in source order
(`os.path.join("source", folder)` for the six folders). -/
def splitDirs : List String :=
  ["source/markov", "source/models", "source/models/solow",
   "source/random", "source/tools", "source/util"]

/-- The full event sequence of `model_tool()`: ensure the six category
directories, write each category's per-module files (each list sorted),
write `index.rst`, then the five category index files. -/
def model_tool (fs : FS) : List Event :=
  splitDirs.map Event.ensureDir
  ++ catWrites "source/markov" markov_module_template (markovNames fs)
  ++ catWrites "source/models" model_module_template (modelsNames fs)
  ++ catWrites "source/models/solow" solow_model_module_template (solowNames fs)
  ++ catWrites "source/random" random_module_template (randomNames fs)
  ++ catWrites "source/tools" module_template (toolsNames fs)
  ++ catWrites "source/util" util_module_template (utilNames fs)
  ++ [Event.write "source" "index.rst" split_index_template]
  ++ [Event.write "source" "markov.rst"
        (split_file_template (pyCapitalize "markov") (eqStr "markov") (markovBlock fs)),
      Event.write "source" "models.rst"
        (split_file_template (pyCapitalize "models") (eqStr "models") (modelsBlock fs)),
      Event.write "source" "random.rst"
        (split_file_template (pyCapitalize "random") (eqStr "random") (randomBlock fs)),
      Event.write "source" "tools.rst"
        (split_file_template (pyCapitalize "tools") (eqStr "tools") (toolsBlock fs)),
      Event.write "source" "util.rst"
        (split_file_template (pyCapitalize "util") (eqStr "util") (utilBlock fs))]

/-! ### `all_auto` (single-index mode) -/

/-- The names bound at the top level of `qe_apidoc.py`: the three
imports and every `def`/assignment of the module.  There is no
definition of `gen_module` anywhere in the file, so the call
`gen_module(name, f)` in `all_auto` raises `NameError` when reached. -/
def definedTopLevelNames : List String :=
  ["os", "sys", "glob",
   "module_template", "markov_module_template", "model_module_template",
   "solow_model_module_template", "random_module_template",
   "util_module_template", "all_index_template", "split_index_template",
   "split_file_template", "source_join", "all_auto", "model_tool"]

/-- A Python exception escaping the run. -/
inductive PyError where
  | nameError (missing : String)
deriving DecidableEq, Repr

/-- `mod_names` of `all_auto`: the glob hits of `../quantecon/`, with
the full filename kept (`.py` included) and NOT sorted. -/
def allAutoMods (fs : FS) : List String := globNames "../quantecon" fs

/-- The per-module loop of `all_auto`.  For each module the source opens
`source/modules/<name>.rst` with mode `"w"` (creating or truncating the
file) and then calls `gen_module(name, f)`.  Name resolution over the
module's top-level names fails (`gen_module` is bound nowhere), so the
first iteration truncates its target and raises `NameError`; the `with`
block closes the handle and the exception aborts the loop. -/
def allAutoLoop : List String → List Event × Option PyError
  | [] => ([], none)
  | mod :: rest =>
    let ev := Event.write "source/modules" (dotHead mod ++ ".rst") ""
    if "gen_module" ∈ definedTopLevelNames then
      let r := allAutoLoop rest
      (ev :: r.1, r.2)
    else
      ([ev], some (PyError.nameError "gen_module"))

/-- The full event sequence of `all_auto()` together with the escaping
exception, if any: ensure `source/modules`, run the per-module loop, and
only if the loop finished write `index.rst` from `all_index_template`
with the `"\n   ".join` of the (unsorted) `modules/<name>` entries. -/
def all_auto (fs : FS) : List Event × Option PyError :=
  let mods := allAutoMods fs
  let r := allAutoLoop mods
  match r.2 with
  | some e => (Event.ensureDir "source/modules" :: r.1, some e)
  | none =>
    let generated := joinSep "\n   " (mods.map (fun x => "modules/" ++ dotHead x))
    (Event.ensureDir "source/modules" :: r.1
      ++ [Event.write "source" "index.rst" (all_index_template generated)], none)

/-! ### `__main__` -/

/-- The mode an invocation runs. -/
inductive Mode where
  | single
  | split
deriving DecidableEq, Repr

/-- `if "single" in sys.argv[1:]`: the argument list here is
`sys.argv[1:]`, i.e. the invocation arguments after the program name. -/
def selectMode (args : List String) : Mode :=
  if "single" ∈ args then Mode.single else Mode.split

/-- The `__main__` block: dispatch on the mode and run exactly one of
the two generators. -/
def runMain (args : List String) (fs : FS) : List Event × Option PyError :=
  match selectMode args with
  | Mode.single => all_auto fs
  | Mode.split => (model_tool fs, none)

/-! ### Line structure of rendered documents -/

/-- Split a character list into its lines at every newline character
(the final segment included, as Python's `str.splitlines` keepends=False
over an explicit trailing split would give). -/
def splitLines : List Char → List (List Char)
  | [] => [[]]
  | c :: cs =>
    if c = '\n' then [] :: splitLines cs
    else (c :: (splitLines cs).headD []) :: (splitLines cs).tail

/-- The `i`-th line of a string. -/
def lineAt (s : String) (i : Nat) : Option (List Char) :=
  (splitLines s.data)[i]?

/-! ### The file writer (`with open(path, "w") as f: f.write(...)`)

A finer model of the write phase for the error-handling contract: the
state tracks file contents and the open handles, a failure oracle says
which writes raise, and the run performs `model_tool`'s writes in order,
stopping at (and propagating) the first error. -/

/-- A file is keyed by its (directory, filename). -/
abbrev FileKey := String × String

/-- Store `c` at key `k`, replacing (never appending to) any previous
content. -/
def fsSet : List (FileKey × String) → FileKey → String → List (FileKey × String)
  | [], k, c => [(k, c)]
  | (k', c') :: rest, k, c =>
    if k' = k then (k, c) :: rest else (k', c') :: fsSet rest k c

/-- Look up the content stored at key `k`. -/
def lookupC : List (FileKey × String) → FileKey → Option String
  | [], _ => none
  | (k', c) :: rest, k => if k' = k then some c else lookupC rest k

/-- The writer's filesystem state: file contents plus the open handles. -/
structure WState where
  files : List (FileKey × String)
  openHandles : List FileKey
deriving DecidableEq, Repr

/-- One `with open(path, "w") as f: f.write(content)` block against a
failure oracle.  Opening mode `"w"` truncates the target and registers
the handle; if the write raises (`fail k`), the `with` block still
closes the handle before the exception escapes; otherwise the full
content is written and the handle is closed.  Returns the new state and
whether the write succeeded. -/
def writeOne (fail : FileKey → Bool) (st : WState) (k : FileKey) (c : String) :
    WState × Bool :=
  let opened : WState := ⟨fsSet st.files k "", k :: st.openHandles⟩
  if fail k then
    (⟨opened.files, st.openHandles⟩, false)
  else
    (⟨fsSet opened.files k c, st.openHandles⟩, true)

/-- Perform a list of writes in order, stopping at the first failure and
propagating its key as the escaping error (nothing catches it, nothing
is retried, and no later write runs). -/
def runWrites (fail : FileKey → Bool) (st : WState) :
    List (FileKey × String) → WState × Option FileKey
  | [] => (st, none)
  | (k, c) :: rest =>
    let r := writeOne fail st k c
    if r.2 then runWrites fail r.1 rest else (r.1, some k)

/-- Does the oracle let this write through? -/
def okW (fail : FileKey → Bool) (w : FileKey × String) : Bool :=
  !(fail w.1)

/-- The cumulative effect on file contents of a list of writes. -/
def applyWs (files : List (FileKey × String)) (ws : List (FileKey × String)) :
    List (FileKey × String) :=
  ws.foldl (fun acc w => fsSet acc w.1 w.2) files

/-- Run `model_tool`'s write phase from an empty state against a failure
oracle. -/
def modelToolRun (fail : FileKey → Bool) (fs : FS) : WState × Option FileKey :=
  runWrites fail ⟨[], []⟩ (writesKC (model_tool fs))

/-! ### Basic string lemmas -/

theorem sdata_append : ∀ (a b : String), (a ++ b).data = a.data ++ b.data :=
  fun ⟨_⟩ ⟨_⟩ => rfl

theorem str_ext : ∀ {a b : String}, a.data = b.data → a = b :=
  fun {a b} h => by cases a; cases b; cases h; rfl

theorem strAssoc (a b c : String) : a ++ b ++ c = a ++ (b ++ c) :=
  str_ext (by simp [sdata_append])

/-! ### Evaluation lemmas for `all_auto` -/

theorem gen_module_not_defined : "gen_module" ∉ definedTopLevelNames := by
  decide

theorem allAutoLoop_cons (m : String) (rest : List String) :
    allAutoLoop (m :: rest) =
      ([Event.write "source/modules" (dotHead m ++ ".rst") ""],
       some (PyError.nameError "gen_module")) := by
  simp [allAutoLoop, gen_module_not_defined]

theorem all_auto_eq_of_cons (fs : FS) (m : String) (ms : List String)
    (h : allAutoMods fs = m :: ms) :
    all_auto fs =
      ([Event.ensureDir "source/modules",
        Event.write "source/modules" (dotHead m ++ ".rst") ""],
       some (PyError.nameError "gen_module")) := by
  simp [all_auto, h, allAutoLoop_cons]

theorem all_auto_eq_of_nil (fs : FS) (h : allAutoMods fs = []) :
    all_auto fs =
      ([Event.ensureDir "source/modules",
        Event.write "source" "index.rst" (all_index_template "")], none) := by
  simp [all_auto, h, allAutoLoop, joinSep]

theorem all_auto_fst_head (fs : FS) :
    (all_auto fs).1.head? = some (Event.ensureDir "source/modules") := by
  cases h : (allAutoLoop (allAutoMods fs)).2 with
  | none => simp [all_auto, h]
  | some e => simp [all_auto, h]

/-- C2: the program runs single-index mode (`all_auto`) exactly when the
invocation argument list (`sys.argv[1:]`) contains the literal token
`"single"`; every other argument list, the empty one included, runs
split-index mode (`model_tool`); and the two behaviors never coincide,
so one invocation runs exactly one of the two modes. -/
theorem mode_selection_iff_single (args : List String) (fs : FS) :
    ("single" ∈ args → runMain args fs = all_auto fs) ∧
    ("single" ∉ args → runMain args fs = (model_tool fs, none)) ∧
    ¬ all_auto fs = (model_tool fs, none) := by
  refine ⟨fun h => ?_, fun h => ?_, fun h => ?_⟩
  · simp [runMain, selectMode, if_pos h]
  · simp [runMain, selectMode, if_neg h]
  · have h1 := congrArg (fun p => p.1.head?) h
    have h2 : (model_tool fs).head? = some (Event.ensureDir "source/markov") := rfl
    simp only [all_auto_fst_head, h2] at h1
    exact absurd h1 (by decide)

theorem mode_selection_iff_single_witness :
    runMain ["single"] [] = all_auto [] ∧ runMain [] [] = (model_tool [], none) :=
  ⟨(mode_selection_iff_single ["single"] []).1 (by decide),
   (mode_selection_iff_single [] []).2.1 (by decide)⟩

/-- C3: `all_auto` calls `gen_module`, which is bound nowhere among the
program's top-level names; whenever discovery finds at least one module,
the run ensures `source/modules`, opens (and thereby truncates) the
first per-module output file, and aborts with `NameError`: no
per-module document content is ever written and the index document is
never written. -/
theorem all_auto_gen_module_nameError (fs : FS) (m : String) (ms : List String)
    (h : allAutoMods fs = m :: ms) :
    all_auto fs =
      ([Event.ensureDir "source/modules",
        Event.write "source/modules" (dotHead m ++ ".rst") ""],
       some (PyError.nameError "gen_module")) ∧
    "gen_module" ∉ definedTopLevelNames ∧
    (∀ c, Event.write "source" "index.rst" c ∉ (all_auto fs).1) ∧
    (∀ d f c, Event.write d f c ∈ (all_auto fs).1 → c = "") := by
  have he := all_auto_eq_of_cons fs m ms h
  refine ⟨he, gen_module_not_defined, ?_, ?_⟩
  · intro c hc
    rw [he] at hc
    simp only [List.mem_cons, List.not_mem_nil, or_false] at hc
    rcases hc with h1 | h1
    · exact Event.noConfusion h1
    · injection h1 with hd _ _
      exact absurd hd (by decide)
  · intro d f c hc
    rw [he] at hc
    simp only [List.mem_cons, List.not_mem_nil, or_false] at hc
    rcases hc with h1 | h1
    · exact Event.noConfusion h1
    · injection h1

theorem all_auto_gen_module_nameError_witness :
    allAutoMods [("../quantecon", "a.py")] = ["a.py"] ∧
    all_auto [("../quantecon", "a.py")] =
      ([Event.ensureDir "source/modules",
        Event.write "source/modules" "a.rst" ""],
       some (PyError.nameError "gen_module")) :=
  ⟨by decide,
   (all_auto_gen_module_nameError [("../quantecon", "a.py")] "a.py" [] (by decide)).1⟩

/-! ### Line structure of the rendered templates -/

theorem splitLines_ne_nil (cs : List Char) : splitLines cs ≠ [] := by
  cases cs with
  | nil => simp [splitLines]
  | cons c cs =>
    unfold splitLines
    by_cases h : c = '\n' <;> simp [h]

theorem splitLines_cons_ne (x : Char) (l : List Char) (hx : ¬ x = '\n') :
    splitLines (x :: l) = (x :: (splitLines l).headD []) :: (splitLines l).tail := by
  conv_lhs => unfold splitLines
  rw [if_neg hx]

theorem splitLines_break (xs ys : List Char) (h : '\n' ∉ xs) :
    splitLines (xs ++ '\n' :: ys) = xs :: splitLines ys := by
  induction xs with
  | nil => simp [splitLines]
  | cons x xs ih =>
    have hx : ¬ x = '\n' := fun he => h (he ▸ List.mem_cons_self x xs)
    have h' : '\n' ∉ xs := fun hm => h (List.mem_cons_of_mem x hm)
    rw [List.cons_append, splitLines_cons_ne x _ hx, ih h']
    simp

theorem lineAt_second (s m e : String) (t : List Char)
    (hm : '\n' ∉ m.data) (he : '\n' ∉ e.data)
    (h : s.data = m.data ++ '\n' :: (e.data ++ '\n' :: t)) :
    lineAt s 1 = some e.data := by
  unfold lineAt
  rw [h, splitLines_break _ _ hm, splitLines_break _ _ he]
  simp

theorem nl_not_mem_eqStr (m : String) : '\n' ∉ (eqStr m).data := by
  show '\n' ∉ List.replicate m.length '='
  simp [List.mem_replicate]

theorem module_template_data (m e : String) :
    (module_template m e).data =
      m.data ++ '\n' :: (e.data ++ '\n' ::
        ("\n.. automodule:: quantecon." ++ m ++
         "\n    :members:\n    :undoc-members:\n    :show-inheritance:\n").data) := by
  simp only [module_template, sdata_append, List.append_assoc]
  rfl

theorem markov_module_template_data (m e : String) :
    (markov_module_template m e).data =
      m.data ++ '\n' :: (e.data ++ '\n' ::
        ("\n.. automodule:: quantecon.markov." ++ m ++
         "\n    :members:\n    :undoc-members:\n    :show-inheritance:\n").data) := by
  simp only [markov_module_template, sdata_append, List.append_assoc]
  rfl

theorem model_module_template_data (m e : String) :
    (model_module_template m e).data =
      m.data ++ '\n' :: (e.data ++ '\n' ::
        ("\n.. automodule:: quantecon.models." ++ m ++
         "\n    :members:\n    :undoc-members:\n    :show-inheritance:\n").data) := by
  simp only [model_module_template, sdata_append, List.append_assoc]
  rfl

theorem solow_model_module_template_data (m e : String) :
    (solow_model_module_template m e).data =
      m.data ++ '\n' :: (e.data ++ '\n' ::
        ("\n.. automodule:: quantecon.models.solow." ++ m ++
         "\n    :members:\n    :undoc-members:\n    :show-inheritance:\n").data) := by
  simp only [solow_model_module_template, sdata_append, List.append_assoc]
  rfl

theorem random_module_template_data (m e : String) :
    (random_module_template m e).data =
      m.data ++ '\n' :: (e.data ++ '\n' ::
        ("\n.. automodule:: quantecon.random." ++ m ++
         "\n    :members:\n    :undoc-members:\n    :show-inheritance:\n").data) := by
  simp only [random_module_template, sdata_append, List.append_assoc]
  rfl

theorem util_module_template_data (m e : String) :
    (util_module_template m e).data =
      m.data ++ '\n' :: (e.data ++ '\n' ::
        ("\n.. automodule:: quantecon.util." ++ m ++
         "\n    :members:\n    :undoc-members:\n    :show-inheritance:\n").data) := by
  simp only [util_module_template, sdata_append, List.append_assoc]
  rfl

/-- C1: for every module name `m` (any name without a newline, the
empty name included) and every category template the generator renders,
the rendered per-module document's second line is exactly the underline
character repeated `len(m)` times: the underline length equals the
character length of the module name. -/
theorem underline_length_eq_name_length (m : String) (hm : '\n' ∉ m.data) :
    lineAt (module_template m (eqStr m)) 1 = some (List.replicate m.length '=') ∧
    lineAt (markov_module_template m (eqStr m)) 1 = some (List.replicate m.length '=') ∧
    lineAt (model_module_template m (eqStr m)) 1 = some (List.replicate m.length '=') ∧
    lineAt (solow_model_module_template m (eqStr m)) 1 = some (List.replicate m.length '=') ∧
    lineAt (random_module_template m (eqStr m)) 1 = some (List.replicate m.length '=') ∧
    lineAt (util_module_template m (eqStr m)) 1 = some (List.replicate m.length '=') := by
  refine ⟨?_, ?_, ?_, ?_, ?_, ?_⟩
  · exact lineAt_second _ m (eqStr m) _ hm (nl_not_mem_eqStr m)
      (module_template_data m (eqStr m))
  · exact lineAt_second _ m (eqStr m) _ hm (nl_not_mem_eqStr m)
      (markov_module_template_data m (eqStr m))
  · exact lineAt_second _ m (eqStr m) _ hm (nl_not_mem_eqStr m)
      (model_module_template_data m (eqStr m))
  · exact lineAt_second _ m (eqStr m) _ hm (nl_not_mem_eqStr m)
      (solow_model_module_template_data m (eqStr m))
  · exact lineAt_second _ m (eqStr m) _ hm (nl_not_mem_eqStr m)
      (random_module_template_data m (eqStr m))
  · exact lineAt_second _ m (eqStr m) _ hm (nl_not_mem_eqStr m)
      (util_module_template_data m (eqStr m))

theorem underline_length_eq_name_length_witness :
    '\n' ∉ "kalman".data ∧
    lineAt (module_template "kalman" (eqStr "kalman")) 1 =
      some (List.replicate "kalman".length '=') :=
  ⟨by decide, (underline_length_eq_name_length "kalman" (by decide)).1⟩

/-! ### The end-to-end split-mode example -/

/-- The example source tree: `markov/ergodicity.py` and
`models/lucastree.py`. -/
def exFS6 : FS :=
  [("../quantecon/markov", "ergodicity.py"), ("../quantecon/models", "lucastree.py")]

/-- C6 counterexample: in the generated `source/markov/ergodicity.rst`,
the second line is ten equals signs (`len("ergodicity") = 10`), not the
eight-character underline the claim states. -/
theorem split_example_underline_not_eight :
    ((findWrite (model_tool exFS6) "source/markov" "ergodicity.rst").bind
        (fun c => lineAt c 1)) ≠ some ("========".data) ∧
    ((findWrite (model_tool exFS6) "source/markov" "ergodicity.rst").bind
        (fun c => lineAt c 1)) = some ("==========".data) :=
  ⟨by decide, by decide⟩

/-- C6 (amended): with `markov/ergodicity.py` and `models/lucastree.py`
in the source tree, split mode writes `source/markov/ergodicity.rst` as
the markov template rendered at `mod_name="ergodicity"` with a
TEN-character underline, writes `source/models/lucastree.rst` similarly
with the models template, and `source/markov.rst` lists
`markov/ergodicity` in its inclusion block. -/
theorem split_example_outputs :
    findWrite (model_tool exFS6) "source/markov" "ergodicity.rst" =
      some "ergodicity\n==========\n\n.. automodule:: quantecon.markov.ergodicity\n    :members:\n    :undoc-members:\n    :show-inheritance:\n" ∧
    findWrite (model_tool exFS6) "source/markov" "ergodicity.rst" =
      some (markov_module_template "ergodicity" (eqStr "ergodicity")) ∧
    (eqStr "ergodicity").length = 10 ∧
    findWrite (model_tool exFS6) "source/models" "lucastree.rst" =
      some (model_module_template "lucastree" (eqStr "lucastree")) ∧
    markovBlock exFS6 = "markov/ergodicity" ∧
    findWrite (model_tool exFS6) "source" "markov.rst" =
      some "Markov\n======\n\n.. toctree::\n   :maxdepth: 2\n\n   markov/ergodicity\n" :=
  ⟨by decide, by decide, by decide, by decide, by decide, by decide⟩

/-! ### Alphabetization -/

theorem lexLe_total (as : List Char) : ∀ bs, lexLe as bs = true ∨ lexLe bs as = true := by
  induction as with
  | nil => intro bs; left; rfl
  | cons a as ih =>
    intro bs
    cases bs with
    | nil => right; rfl
    | cons b bs =>
      rcases Nat.lt_trichotomy a.toNat b.toNat with h | h | h
      · left; simp [lexLe, h]
      · have h2 : ¬ a.toNat < b.toNat := by omega
        have h3 : ¬ b.toNat < a.toNat := by omega
        rcases ih bs with h4 | h4
        · left; simp [lexLe, h2, h3, h4]
        · right; simp [lexLe, h2, h3, h4]
      · right; simp [lexLe, h]

theorem lexLe_trans (as : List Char) :
    ∀ bs cs, lexLe as bs = true → lexLe bs cs = true → lexLe as cs = true := by
  induction as with
  | nil => intro bs cs _ _; rfl
  | cons a as ih =>
    intro bs cs h1 h2
    cases bs with
    | nil => simp [lexLe] at h1
    | cons b bs =>
      cases cs with
      | nil => simp [lexLe] at h2
      | cons c cs =>
        by_cases hab : a.toNat < b.toNat
        · by_cases hbc : b.toNat < c.toNat
          · have hac : a.toNat < c.toNat := Nat.lt_trans hab hbc
            simp [lexLe, hac]
          · by_cases hcb : c.toNat < b.toNat
            · simp [lexLe, hbc, hcb] at h2
            · have hbe : b.toNat = c.toNat :=
                Nat.le_antisymm (Nat.not_lt.1 hcb) (Nat.not_lt.1 hbc)
              have hac : a.toNat < c.toNat := hbe ▸ hab
              simp [lexLe, hac]
        · by_cases hba : b.toNat < a.toNat
          · simp [lexLe, hab, hba] at h1
          · have h1' : lexLe as bs = true := by simpa [lexLe, hab, hba] using h1
            have hae : a.toNat = b.toNat :=
              Nat.le_antisymm (Nat.not_lt.1 hba) (Nat.not_lt.1 hab)
            by_cases hbc : b.toNat < c.toNat
            · have hac : a.toNat < c.toNat := hae ▸ hbc
              simp [lexLe, hac]
            · by_cases hcb : c.toNat < b.toNat
              · simp [lexLe, hbc, hcb] at h2
              · have hbe : b.toNat = c.toNat :=
                  Nat.le_antisymm (Nat.not_lt.1 hcb) (Nat.not_lt.1 hbc)
                have h2' : lexLe bs cs = true := by simpa [lexLe, hbc, hcb] using h2
                have hace : a.toNat = c.toNat := hae.trans hbe
                have hac1 : ¬ a.toNat < c.toNat := by omega
                have hac2 : ¬ c.toNat < a.toNat := by omega
                simp [lexLe, hac1, hac2, ih bs cs h1' h2']

instance strLe_isTotal : IsTotal String (fun a b => strLe a b = true) :=
  ⟨fun a b => lexLe_total a.data b.data⟩

instance strLe_isTrans : IsTrans String (fun a b => strLe a b = true) :=
  ⟨fun a b c => lexLe_trans a.data b.data c.data⟩

theorem sorted_catNames (d : String) (fs : FS) :
    List.Sorted (fun a b => strLe a b = true) (catNames d fs) :=
  List.sorted_insertionSort _ _

/-- An input listing whose glob order is not alphabetical. -/
def exFS4 : FS := [("../quantecon", "b.py"), ("../quantecon", "a.py")]

/-- C4 counterexample: in single-index mode the discovered name list is
used exactly in glob (listing) order without sorting: on a listing that
yields `["b.py", "a.py"]`, the list differs from its sorted version, and
the run's first (and only) per-module write is for `b`, though `a` comes
first alphabetically. -/
theorem single_mode_names_unsorted :
    allAutoMods exFS4 = ["b.py", "a.py"] ∧
    allAutoMods exFS4 ≠
      List.insertionSort (fun a b => strLe a b = true) (allAutoMods exFS4) ∧
    (all_auto exFS4).1 =
      [Event.ensureDir "source/modules", Event.write "source/modules" "b.rst" ""] :=
  ⟨by decide, by decide, by decide⟩

/-- C4 (amended): in split-index mode, every category's bare module name
list is sorted alphabetically before it is used for rendering and index
assembly; single-index mode (see the counterexample) uses the raw glob
order. -/
theorem split_mode_names_sorted (fs : FS) :
    List.Sorted (fun a b => strLe a b = true) (markovNames fs) ∧
    List.Sorted (fun a b => strLe a b = true) (modelsNames fs) ∧
    List.Sorted (fun a b => strLe a b = true) (solowNames fs) ∧
    List.Sorted (fun a b => strLe a b = true) (randomNames fs) ∧
    List.Sorted (fun a b => strLe a b = true) (toolsNames fs) ∧
    List.Sorted (fun a b => strLe a b = true) (utilNames fs) :=
  ⟨sorted_catNames _ fs, sorted_catNames _ fs, sorted_catNames _ fs,
   sorted_catNames _ fs, sorted_catNames _ fs, sorted_catNames _ fs⟩

/-! ### The toctree blocks of the category index files -/

theorem joinSep_map_pre (p sep : String) :
    ∀ l : List String, l ≠ [] →
      p ++ joinSep (sep ++ p) l = joinSep sep (l.map (fun x => p ++ x))
  | [], h => absurd rfl h
  | [x], _ => by simp [joinSep]
  | x :: y :: xs, _ => by
    have ih := joinSep_map_pre p sep (y :: xs) (by simp)
    simp only [List.map_cons] at ih ⊢
    have e1 : joinSep (sep ++ p) (x :: y :: xs) =
        x ++ (sep ++ p) ++ joinSep (sep ++ p) (y :: xs) := rfl
    have e2 : joinSep sep ((p ++ x) :: (p ++ y) :: xs.map (fun x => p ++ x)) =
        (p ++ x) ++ sep ++ joinSep sep ((p ++ y) :: xs.map (fun x => p ++ x)) := rfl
    rw [e1, e2, ← ih]
    simp [strAssoc]

theorem joinSep_append_one (sep x : String) :
    ∀ l : List String, l ≠ [] →
      joinSep sep (l ++ [x]) = joinSep sep l ++ sep ++ x
  | [], h => absurd rfl h
  | [y], _ => by simp [joinSep]
  | y :: z :: xs, _ => by
    have ih := joinSep_append_one sep x (z :: xs) (by simp)
    have e1 : joinSep sep ((y :: z :: xs) ++ [x]) =
        y ++ sep ++ joinSep sep ((z :: xs) ++ [x]) := rfl
    have e2 : joinSep sep (y :: z :: xs) =
        y ++ sep ++ joinSep sep (z :: xs) := rfl
    rw [e1, e2, ih]
    simp [strAssoc]

/-- C8 counterexample: on an empty source tree the markov category
discovers no modules, yet the markov index's inclusion block is the
dangling entry `markov/` rather than the empty list of entries the claim
requires. -/
theorem markov_index_block_dangling_entry :
    markovBlock [] ≠
      joinSep "\n   " ((markovNames []).map (fun n => "markov/" ++ n)) ∧
    markovBlock [] = "markov/" :=
  ⟨by decide, by decide⟩

/-- C8 (amended): in split-index mode, each category index whose
category discovered at least one module lists exactly that category's
module names, each prefixed with its category path, joined as toctree
entries in alphabetical (sorted) order; a category with no discovered
modules gets a single dangling entry that is just the category prefix;
and the models index appends exactly one fixed final entry, the
hard-coded literal `solow/`, not derived from discovery. -/
theorem category_index_blocks (fs : FS) :
    (markovNames fs ≠ [] →
      markovBlock fs = joinSep "\n   " ((markovNames fs).map (fun n => "markov/" ++ n))) ∧
    (markovNames fs = [] → markovBlock fs = "markov/") ∧
    (modelsNames fs ≠ [] →
      modelsBlock fs =
        joinSep "\n   " (((modelsNames fs).map (fun n => "models/" ++ n)) ++ ["solow/"])) ∧
    (modelsNames fs = [] → modelsBlock fs = "models/\n   solow/") ∧
    (randomNames fs ≠ [] →
      randomBlock fs = joinSep "\n   " ((randomNames fs).map (fun n => "random/" ++ n))) ∧
    (toolsNames fs ≠ [] →
      toolsBlock fs = joinSep "\n   " ((toolsNames fs).map (fun n => "tools/" ++ n))) ∧
    (utilNames fs ≠ [] →
      utilBlock fs = joinSep "\n   " ((utilNames fs).map (fun n => "util/" ++ n))) ∧
    List.Sorted (fun a b => strLe a b = true) (markovNames fs) ∧
    List.Sorted (fun a b => strLe a b = true) (modelsNames fs) ∧
    List.Sorted (fun a b => strLe a b = true) (randomNames fs) ∧
    List.Sorted (fun a b => strLe a b = true) (toolsNames fs) ∧
    List.Sorted (fun a b => strLe a b = true) (utilNames fs) := by
  refine ⟨fun h => ?_, fun h => ?_, fun h => ?_, fun h => ?_, fun h => ?_,
    fun h => ?_, fun h => ?_, sorted_catNames _ fs, sorted_catNames _ fs,
    sorted_catNames _ fs, sorted_catNames _ fs, sorted_catNames _ fs⟩
  · exact joinSep_map_pre "markov/" "\n   " (markovNames fs) h
  · simp only [markovBlock, h]
    decide
  · have hm : (modelsNames fs).map (fun n => "models/" ++ n) ≠ [] := by
      simp [h]
    have h1 := joinSep_map_pre "models/" "\n   " (modelsNames fs) h
    have h2 := joinSep_append_one "\n   " "solow/"
      ((modelsNames fs).map (fun n => "models/" ++ n)) hm
    rw [h2, ← h1, strAssoc]
    rfl
  · simp only [modelsBlock, h]
    decide
  · exact joinSep_map_pre "random/" "\n   " (randomNames fs) h
  · exact joinSep_map_pre "tools/" "\n   " (toolsNames fs) h
  · exact joinSep_map_pre "util/" "\n   " (utilNames fs) h

theorem category_index_blocks_witness :
    markovNames exFS6 ≠ [] ∧
    markovBlock exFS6 =
      joinSep "\n   " ((markovNames exFS6).map (fun n => "markov/" ++ n)) ∧
    modelsBlock exFS6 =
      joinSep "\n   " (((modelsNames exFS6).map (fun n => "models/" ++ n)) ++ ["solow/"]) ∧
    markovBlock [] = "markov/" :=
  ⟨by decide,
   (category_index_blocks exFS6).1 (by decide),
   (category_index_blocks exFS6).2.2.1 (by decide),
   (category_index_blocks []).2.1 (by decide)⟩

/-- C9: split mode writes a category index `source/util.rst` for the
util category, but the top-level index document's toctree lines
reference only markov, models, random and tools, never util: one
generated category index is referenced by no index document. -/
theorem util_index_never_referenced (fs : FS) :
    (∃ c, Event.write "source" "util.rst" c ∈ model_tool fs) ∧
    ((splitLines split_index_template.data).contains "   util".data) = false ∧
    ((splitLines split_index_template.data).contains "   markov".data) = true ∧
    ((splitLines split_index_template.data).contains "   models".data) = true ∧
    ((splitLines split_index_template.data).contains "   random".data) = true ∧
    ((splitLines split_index_template.data).contains "   tools".data) = true := by
  refine ⟨⟨split_file_template (pyCapitalize "util") (eqStr "util") (utilBlock fs), ?_⟩,
    by decide, by decide, by decide, by decide, by decide⟩
  simp [model_tool]

/-! ### Which paths each mode touches -/

theorem globNames_append_of (d : String) (fs extra : FS)
    (h : ∀ x ∈ extra, ¬ x.1 = d) :
    globNames d (fs ++ extra) = globNames d fs := by
  unfold globNames
  rw [List.filter_append]
  have he : extra.filter (fun s => s.1 == d && matchPy s.2) = [] := by
    rw [List.filter_eq_nil_iff]
    intro x hx
    simp [beq_iff_eq, h x hx]
  rw [he, List.append_nil]

theorem writeKeys_append (a b : List Event) :
    writeKeys (a ++ b) = writeKeys a ++ writeKeys b :=
  List.filterMap_append a b _

theorem writeKeys_catWrites (dir : String) (tpl : String → String → String)
    (names : List String) :
    writeKeys (catWrites dir tpl names) = names.map (fun m => (dir, m ++ ".rst")) := by
  induction names with
  | nil => rfl
  | cons n ns ih =>
    simp [writeKeys, catWrites, List.filterMap_cons] at ih ⊢
    exact ih

theorem writeKeys_model_tool (fs : FS) :
    writeKeys (model_tool fs) =
      (markovNames fs).map (fun m => ("source/markov", m ++ ".rst")) ++
      (modelsNames fs).map (fun m => ("source/models", m ++ ".rst")) ++
      (solowNames fs).map (fun m => ("source/models/solow", m ++ ".rst")) ++
      (randomNames fs).map (fun m => ("source/random", m ++ ".rst")) ++
      (toolsNames fs).map (fun m => ("source/tools", m ++ ".rst")) ++
      (utilNames fs).map (fun m => ("source/util", m ++ ".rst")) ++
      [("source", "index.rst"), ("source", "markov.rst"), ("source", "models.rst"),
       ("source", "random.rst"), ("source", "tools.rst"), ("source", "util.rst")] := by
  simp only [model_tool, writeKeys_append, writeKeys_catWrites]
  simp [writeKeys, List.filterMap_cons, splitDirs]

theorem model_tool_writeKey_cases (fs : FS) (k : String × String)
    (hk : k ∈ writeKeys (model_tool fs)) :
    k.1 = "source/markov" ∨ k.1 = "source/models" ∨ k.1 = "source/models/solow" ∨
    k.1 = "source/random" ∨ k.1 = "source/tools" ∨ k.1 = "source/util" ∨
    k.1 = "source" := by
  rw [writeKeys_model_tool] at hk
  rcases List.mem_append.1 hk with hk | hk
  · rcases List.mem_append.1 hk with hk | hk
    · rcases List.mem_append.1 hk with hk | hk
      · rcases List.mem_append.1 hk with hk | hk
        · rcases List.mem_append.1 hk with hk | hk
          · rcases List.mem_append.1 hk with hk | hk
            · obtain ⟨m, _, rfl⟩ := List.mem_map.1 hk
              simp
            · obtain ⟨m, _, rfl⟩ := List.mem_map.1 hk
              simp
          · obtain ⟨m, _, rfl⟩ := List.mem_map.1 hk
            simp
        · obtain ⟨m, _, rfl⟩ := List.mem_map.1 hk
          simp
      · obtain ⟨m, _, rfl⟩ := List.mem_map.1 hk
        simp
    · obtain ⟨m, _, rfl⟩ := List.mem_map.1 hk
      simp
  · simp only [List.mem_cons, List.not_mem_nil, or_false] at hk
    rcases hk with rfl | rfl | rfl | rfl | rfl | rfl <;> simp

theorem all_auto_writeKey_cases (fs : FS) (k : String × String)
    (hk : k ∈ writeKeys (all_auto fs).1) :
    k.1 = "source/modules" ∨ k = ("source", "index.rst") := by
  cases h : allAutoMods fs with
  | nil =>
    rw [all_auto_eq_of_nil fs h] at hk
    simp only [writeKeys, List.filterMap_cons, List.filterMap_nil] at hk
    simp only [List.mem_singleton] at hk
    exact Or.inr hk
  | cons m ms =>
    rw [all_auto_eq_of_cons fs m ms h] at hk
    simp only [writeKeys, List.filterMap_cons, List.filterMap_nil] at hk
    simp only [List.mem_singleton] at hk
    left
    rw [hk]

/-- The directories `model_tool` scans, as bound in its six `glob`
calls. -/
def scanDirs : List String :=
  ["../quantecon/markov", "../quantecon/models", "../quantecon/models/solow",
   "../quantecon/random", "../quantecon", "../quantecon/util"]

theorem globNames_stable_model_tool (fs : FS) (d : String) (hd : d ∈ scanDirs) :
    globNames d (fs ++ writeKeys (model_tool fs)) = globNames d fs := by
  apply globNames_append_of
  intro x hx hxd
  have hc := model_tool_writeKey_cases fs x hx
  rcases hc with h | h | h | h | h | h | h <;>
    (rw [← hxd] at hd; rw [h] at hd; exact absurd hd (by decide))

theorem model_tool_stable (fs extra : FS)
    (h1 : globNames "../quantecon/markov" (fs ++ extra) = globNames "../quantecon/markov" fs)
    (h2 : globNames "../quantecon/models" (fs ++ extra) = globNames "../quantecon/models" fs)
    (h3 : globNames "../quantecon/models/solow" (fs ++ extra) = globNames "../quantecon/models/solow" fs)
    (h4 : globNames "../quantecon/random" (fs ++ extra) = globNames "../quantecon/random" fs)
    (h5 : globNames "../quantecon" (fs ++ extra) = globNames "../quantecon" fs)
    (h6 : globNames "../quantecon/util" (fs ++ extra) = globNames "../quantecon/util" fs) :
    model_tool (fs ++ extra) = model_tool fs := by
  simp only [model_tool, markovBlock, modelsBlock, randomBlock, toolsBlock, utilBlock,
    markovNames, modelsNames, solowNames, randomNames, toolsNames, utilNames, catNames,
    h1, h2, h3, h4, h5, h6]

theorem all_auto_stable (fs extra : FS)
    (h : globNames "../quantecon" (fs ++ extra) = globNames "../quantecon" fs) :
    all_auto (fs ++ extra) = all_auto fs := by
  simp only [all_auto, allAutoMods, h]

theorem globNames_stable_all_auto (fs : FS) :
    globNames "../quantecon" (fs ++ writeKeys (all_auto fs).1) =
      globNames "../quantecon" fs := by
  apply globNames_append_of
  intro x hx hxd
  rcases all_auto_writeKey_cases fs x hx with h | h
  · rw [hxd] at h
    exact absurd h (by decide)
  · have h2 : x.1 = "source" := by rw [h]
    rw [hxd] at h2
    exact absurd h2 (by decide)

/-- C5: a second run on the filesystem the first run left behind (same
source input, the first run's outputs added) performs exactly the same
events — in particular every output path is rewritten with exactly the
same bytes — in both modes.  The written paths never match the scanned
directories, so discovery is unchanged. -/
theorem rerun_byte_identical (fs : FS) :
    model_tool (fs ++ writeKeys (model_tool fs)) = model_tool fs ∧
    all_auto (fs ++ writeKeys (all_auto fs).1) = all_auto fs :=
  ⟨model_tool_stable fs _
      (globNames_stable_model_tool fs _ (by decide))
      (globNames_stable_model_tool fs _ (by decide))
      (globNames_stable_model_tool fs _ (by decide))
      (globNames_stable_model_tool fs _ (by decide))
      (globNames_stable_model_tool fs _ (by decide))
      (globNames_stable_model_tool fs _ (by decide)),
   all_auto_stable fs _ (globNames_stable_all_auto fs)⟩

/-- C7 counterexample: the two modes' output path sets are not disjoint:
both modes write the top-level index at `source/index.rst` (here on the
empty source tree, where single mode completes). -/
theorem index_written_by_both_modes :
    ("source", "index.rst") ∈ writeKeys (all_auto []).1 ∧
    ("source", "index.rst") ∈ writeKeys (model_tool []) :=
  ⟨by decide, by decide⟩

/-- C7 (amended): invocation with `["single"]` targets exactly one
`modules/` output directory (plus the flat index, written only when
discovery is empty, since per-module generation aborts otherwise);
invocation with `[]` or `["foo"]` produces the fixed multi-category
directory layout plus its index documents; the per-module output trees
of the two modes are disjoint, but both modes write the top-level index
at the same path `source/index.rst`. -/
theorem output_trees (fs fs' : FS) :
    dirsEnsured (all_auto fs).1 = ["source/modules"] ∧
    dirsEnsured (model_tool fs) = splitDirs ∧
    (∀ k, k ∈ writeKeys (all_auto fs).1 → k ∈ writeKeys (model_tool fs') →
      k = ("source", "index.rst")) ∧
    (allAutoMods fs = [] → ("source", "index.rst") ∈ writeKeys (all_auto fs).1) ∧
    ("source", "index.rst") ∈ writeKeys (model_tool fs) := by
  refine ⟨?_, ?_, ?_, ?_, ?_⟩
  · cases h : allAutoMods fs with
    | nil =>
      rw [all_auto_eq_of_nil fs h]
      rfl
    | cons m ms =>
      rw [all_auto_eq_of_cons fs m ms h]
      rfl
  · simp [model_tool, dirsEnsured, catWrites, splitDirs, List.filterMap_append,
      List.filterMap_map, Function.comp]
  · intro k h1 h2
    rcases all_auto_writeKey_cases fs k h1 with h | h
    · rcases model_tool_writeKey_cases fs' k h2 with h' | h' | h' | h' | h' | h' | h' <;>
        (rw [h] at h'; exact absurd h' (by decide))
    · exact h
  · intro h
    rw [all_auto_eq_of_nil fs h]
    decide
  · rw [writeKeys_model_tool]
    simp

theorem output_trees_witness :
    ("source", "index.rst") ∈ writeKeys (all_auto []).1 ∧
    (("source", "index.rst") : String × String) = ("source", "index.rst") :=
  ⟨(output_trees [] []).2.2.2.1 (by decide),
   (output_trees [] []).2.2.1 ("source", "index.rst")
     ((output_trees [] []).2.2.2.1 (by decide))
     ((output_trees [] []).2.2.2.2)⟩

/-! ### The file-writer contract -/

theorem lookupC_fsSet : ∀ (l : List (FileKey × String)) (k : FileKey) (c : String),
    lookupC (fsSet l k c) k = some c
  | [], k, c => by simp [fsSet, lookupC]
  | (k', c') :: rest, k, c => by
    by_cases h : k' = k
    · simp [fsSet, lookupC, h]
    · simp only [fsSet, lookupC, if_neg h]
      exact lookupC_fsSet rest k c

theorem fsSet_fsSet : ∀ (l : List (FileKey × String)) (k : FileKey) (a b : String),
    fsSet (fsSet l k a) k b = fsSet l k b
  | [], k, a, b => by simp [fsSet]
  | (k', c') :: rest, k, a, b => by
    by_cases h : k' = k
    · simp [fsSet, h]
    · simp only [fsSet, if_neg h]
      rw [fsSet_fsSet rest k a b]

theorem runWrites_spec (fail : FileKey → Bool) :
    ∀ (ws : List (FileKey × String)) (st : WState),
      (runWrites fail st ws).1.openHandles = st.openHandles ∧
      (ws.dropWhile (okW fail) = [] →
        (runWrites fail st ws).2 = none ∧
        (runWrites fail st ws).1.files = applyWs st.files ws) ∧
      (∀ w rest, ws.dropWhile (okW fail) = w :: rest →
        (runWrites fail st ws).2 = some w.1 ∧ fail w.1 = true ∧
        (runWrites fail st ws).1.files =
          fsSet (applyWs st.files (ws.takeWhile (okW fail))) w.1 "") := by
  intro ws
  induction ws with
  | nil =>
    intro st
    refine ⟨rfl, fun _ => ⟨rfl, rfl⟩, fun w rest hw => ?_⟩
    simp [List.dropWhile] at hw
  | cons wc rest ih =>
    intro st
    obtain ⟨k, c⟩ := wc
    by_cases hf : fail k = true
    · have hok : okW fail (k, c) = false := by simp [okW, hf]
      have hdrop : List.dropWhile (okW fail) ((k, c) :: rest) = (k, c) :: rest := by
        rw [List.dropWhile_cons]
        simp [hok]
      have htake : List.takeWhile (okW fail) ((k, c) :: rest) = [] := by
        rw [List.takeWhile_cons]
        simp [hok]
      have hrun : runWrites fail st ((k, c) :: rest) =
          (⟨fsSet st.files k "", st.openHandles⟩, some k) := by
        simp [runWrites, writeOne, hf]
      refine ⟨by rw [hrun], fun hd => ?_, fun w r hw => ?_⟩
      · rw [hdrop] at hd
        exact absurd hd (by simp)
      · rw [hdrop] at hw
        injection hw with hw1 hw2
        subst hw1
        subst hw2
        refine ⟨by rw [hrun], hf, ?_⟩
        rw [hrun, htake]
        rfl
    · have hok : okW fail (k, c) = true := by simp [okW, hf]
      have hdrop : List.dropWhile (okW fail) ((k, c) :: rest) =
          List.dropWhile (okW fail) rest := by
        rw [List.dropWhile_cons]
        simp [hok]
      have htake : List.takeWhile (okW fail) ((k, c) :: rest) =
          (k, c) :: List.takeWhile (okW fail) rest := by
        rw [List.takeWhile_cons]
        simp [hok]
      have hrun : runWrites fail st ((k, c) :: rest) =
          runWrites fail ⟨fsSet (fsSet st.files k "") k c, st.openHandles⟩ rest := by
        simp [runWrites, writeOne, hf]
      have ih' := ih ⟨fsSet (fsSet st.files k "") k c, st.openHandles⟩
      refine ⟨?_, fun hd => ?_, fun w r hw => ?_⟩
      · rw [hrun]
        exact ih'.1
      · rw [hdrop] at hd
        obtain ⟨ha, hb⟩ := ih'.2.1 hd
        refine ⟨by rw [hrun]; exact ha, ?_⟩
        rw [hrun, hb]
        show applyWs (fsSet (fsSet st.files k "") k c) rest = _
        rw [fsSet_fsSet]
        rfl
      · rw [hdrop] at hw
        obtain ⟨ha, hb, hcc⟩ := ih'.2.2 w r hw
        refine ⟨by rw [hrun]; exact ha, hb, ?_⟩
        rw [hrun, hcc, htake]
        show fsSet (applyWs (fsSet (fsSet st.files k "") k c)
          (List.takeWhile (okW fail) rest)) w.1 "" = _
        rw [fsSet_fsSet]
        rfl

/-- C10: the writer opens each target with truncation (the target's
stored content is replaced wholesale, never appended to), writes the
full rendered content, and releases its handle unconditionally, also
when the write raises; a raised write error propagates (the run returns
the failing key as its escaping error), nothing is retried, and no
document is written after the first error: the final contents are
exactly those of the writes before the first failing one, plus the
failing target left truncated by its own `open`. -/
theorem file_writer_contract (fs : FS) (fail : FileKey → Bool) :
    (modelToolRun fail fs).1.openHandles = [] ∧
    ((writesKC (model_tool fs)).dropWhile (okW fail) = [] →
      (modelToolRun fail fs).2 = none ∧
      (modelToolRun fail fs).1.files = applyWs [] (writesKC (model_tool fs))) ∧
    (∀ w rest, (writesKC (model_tool fs)).dropWhile (okW fail) = w :: rest →
      (modelToolRun fail fs).2 = some w.1 ∧ fail w.1 = true ∧
      (modelToolRun fail fs).1.files =
        fsSet (applyWs [] ((writesKC (model_tool fs)).takeWhile (okW fail))) w.1 "") ∧
    (∀ l k c, lookupC (fsSet l k c) k = some c) := by
  obtain ⟨h1, h2, h3⟩ := runWrites_spec fail (writesKC (model_tool fs)) ⟨[], []⟩
  exact ⟨h1, h2, h3, lookupC_fsSet⟩

theorem file_writer_contract_witness :
    (modelToolRun (fun _ => false) []).2 = none ∧
    (modelToolRun (fun _ => false) []).1.openHandles = [] ∧
    (modelToolRun (fun _ => true) []).1.openHandles = [] :=
  ⟨((file_writer_contract [] (fun _ => false)).2.1 (by decide)).1,
   (file_writer_contract [] (fun _ => false)).1,
   (file_writer_contract [] (fun _ => true)).1⟩

end QeApidoc
